import Mathlib

/-!
# Verification of the EvalNat entity-resolution and document-classification engine

Shallow embedding of the text-normalisation, ingestion, classification, join and
reporting logic of the PublipostageEvalNat scripts (`merge_parents_4e.py`,
`normalize.py`, `pipeline_evalnat.py`, `build_mailmerge_4e_from_merged_v5.py`,
`split_4C.py`, both the macOS and the `Windows/` variants).

Strings are modelled as Lean `String`s (lists of Unicode scalar values).  The
Unicode operations used by the scripts (`unicodedata.normalize("NFD", ·)`,
`unicodedata.category(·) == "Mn"`, `str.lower`, `str.upper`, `str.strip`) are
embedded by explicit tables over the character repertoire these French school
exports actually contain: ASCII plus the accented Latin letters of French and
their combining marks.  Characters outside the tables are fixed points, which
matches CPython's behaviour on every character the tables cover.
-/

set_option maxRecDepth 4000

/-- Combining grave accent U+0300. -/
def cGrave : Char := Char.ofNat 0x300

/-- Combining acute accent U+0301. -/
def cAcute : Char := Char.ofNat 0x301

/-- Combining circumflex U+0302. -/
def cCirc : Char := Char.ofNat 0x302

/-- Combining diaeresis U+0308. -/
def cDiaer : Char := Char.ofNat 0x308

/-- Combining cedilla U+0327. -/
def cCedil : Char := Char.ofNat 0x327

/-- The combining marks produced by NFD on the French repertoire; these are the
characters of category `Mn` relevant to the scripts. -/
def markChars : List Char := [cGrave, cAcute, cCirc, cDiaer, cCedil]

/-- Embedding of `unicodedata.category(c) == "Mn"` restricted to the modelled repertoire. -/
def isMn (c : Char) : Bool := markChars.elem c

/-- Canonical (NFD) decompositions of the precomposed French letters. -/
def nfdTable : List (Char × List Char) :=
  [('à', ['a', cGrave]), ('â', ['a', cCirc]), ('ä', ['a', cDiaer]),
   ('ç', ['c', cCedil]), ('é', ['e', cAcute]), ('è', ['e', cGrave]),
   ('ê', ['e', cCirc]), ('ë', ['e', cDiaer]), ('î', ['i', cCirc]),
   ('ï', ['i', cDiaer]), ('ô', ['o', cCirc]), ('ö', ['o', cDiaer]),
   ('ù', ['u', cGrave]), ('û', ['u', cCirc]), ('ü', ['u', cDiaer]),
   ('ÿ', ['y', cDiaer]),
   ('À', ['A', cGrave]), ('Â', ['A', cCirc]), ('Ä', ['A', cDiaer]),
   ('Ç', ['C', cCedil]), ('É', ['E', cAcute]), ('È', ['E', cGrave]),
   ('Ê', ['E', cCirc]), ('Ë', ['E', cDiaer]), ('Î', ['I', cCirc]),
   ('Ï', ['I', cDiaer]), ('Ô', ['O', cCirc]), ('Ö', ['O', cDiaer]),
   ('Ù', ['U', cGrave]), ('Û', ['U', cCirc]), ('Ü', ['U', cDiaer]),
   ('Ÿ', ['Y', cDiaer])]

/-- Embedding of `unicodedata.normalize("NFD", ·)` on one character. -/
def nfdChar (c : Char) : List Char := (nfdTable.lookup c).getD [c]

/-- Embedding of `str.lower` on ASCII letters. -/
def lowerTable : List (Char × Char) :=
  [('A', 'a'), ('B', 'b'), ('C', 'c'), ('D', 'd'), ('E', 'e'), ('F', 'f'),
   ('G', 'g'), ('H', 'h'), ('I', 'i'), ('J', 'j'), ('K', 'k'), ('L', 'l'),
   ('M', 'm'), ('N', 'n'), ('O', 'o'), ('P', 'p'), ('Q', 'q'), ('R', 'r'),
   ('S', 's'), ('T', 't'), ('U', 'u'), ('V', 'v'), ('W', 'w'), ('X', 'x'),
   ('Y', 'y'), ('Z', 'z'),
   ('À', 'à'), ('Â', 'â'), ('Ä', 'ä'), ('Ç', 'ç'), ('É', 'é'), ('È', 'è'),
   ('Ê', 'ê'), ('Ë', 'ë'), ('Î', 'î'), ('Ï', 'ï'), ('Ô', 'ô'), ('Ö', 'ö'),
   ('Ù', 'ù'), ('Û', 'û'), ('Ü', 'ü'), ('Ÿ', 'ÿ')]

/-- Embedding of `str.upper` on the same repertoire (character-for-character; the expansion
`'ß'.upper() == "SS"` is outside the modelled repertoire). -/
def upperTable : List (Char × Char) :=
  [('a', 'A'), ('b', 'B'), ('c', 'C'), ('d', 'D'), ('e', 'E'), ('f', 'F'),
   ('g', 'G'), ('h', 'H'), ('i', 'I'), ('j', 'J'), ('k', 'K'), ('l', 'L'),
   ('m', 'M'), ('n', 'N'), ('o', 'O'), ('p', 'P'), ('q', 'Q'), ('r', 'R'),
   ('s', 'S'), ('t', 'T'), ('u', 'U'), ('v', 'V'), ('w', 'W'), ('x', 'X'),
   ('y', 'Y'), ('z', 'Z'),
   ('à', 'À'), ('â', 'Â'), ('ä', 'Ä'), ('ç', 'Ç'), ('é', 'É'), ('è', 'È'),
   ('ê', 'Ê'), ('ë', 'Ë'), ('î', 'Î'), ('ï', 'Ï'), ('ô', 'Ô'), ('ö', 'Ö'),
   ('ù', 'Ù'), ('û', 'Û'), ('ü', 'Ü'), ('ÿ', 'Ÿ')]

/-- Embedding of `str.lower` on one character. -/
def pyLower (c : Char) : Char := (lowerTable.lookup c).getD c

/-- Embedding of `str.upper` on one character. -/
def pyUpper (c : Char) : Char := (upperTable.lookup c).getD c

/-- Every character that any table treats non-trivially. -/
def specialChars : List Char :=
  nfdTable.map Prod.fst ++ lowerTable.map Prod.fst ++ upperTable.map Prod.fst ++ markChars

/-! ## String-level primitives shared by the scripts -/

/-- Python whitespace (`str.strip`, regex `\s`) restricted to the characters the
exports contain: ASCII whitespace, NEL and the no-break space. -/
def isWsChar (c : Char) : Bool :=
  c == ' ' || c == '\t' || c == '\n' || c == '\r' ||
  c.toNat == 11 || c.toNat == 12 || c.toNat == 0x85 || c.toNat == 0xA0

/-- Embedding of `str.strip()` on a character list. -/
def pyStripL (l : List Char) : List Char :=
  ((l.dropWhile isWsChar).reverse.dropWhile isWsChar).reverse

/-- Embedding of `str.strip()`. -/
def pyStrip (s : String) : String := ⟨pyStripL s.data⟩

/-- Concatenation of the images of a character map (`"".join(f(ch) for ch in s)`). -/
def listFlat (f : Char → List Char) : List Char → List Char
  | [] => []
  | c :: cs => f c ++ listFlat f cs

/-- Embedding of `str.lower()` over a whole string. -/
def pyLowerStr (s : String) : String := ⟨s.data.map pyLower⟩

/-- Embedding of `str.upper()` over a whole string. -/
def pyUpperStr (s : String) : String := ⟨s.data.map pyUpper⟩

/-- The character class `[a-z0-9]` of the squash regexes. -/
def lowAlnumChars : List Char := "abcdefghijklmnopqrstuvwxyz0123456789".data

/-- Membership in `[a-z0-9]`. -/
def isLowerAlnum (c : Char) : Bool := lowAlnumChars.elem c

/-- Embedding of `strip_accents_lower` of `Windows/build_mailmerge_4e_from_merged_v5.py`
(the spec's `fold`): NFD, drop combining marks, lowercase. -/
def strip_accents_lower_list (s : List Char) : List Char :=
  ((listFlat nfdChar s).filter (fun c => !isMn c)).map pyLower

/-- Embedding of `strip_accents_lower` on `String`. -/
def strip_accents_lower (s : String) : String := ⟨strip_accents_lower_list s.data⟩

/-- Embedding of `squash` of `pipeline_evalnat.py`: NFD, lowercase, drop combining marks,
keep only `[a-z0-9]`. -/
def squash_list (s : List Char) : List Char :=
  (((listFlat nfdChar s).map pyLower).filter (fun c => !isMn c)).filter isLowerAlnum

/-- Embedding of `squash` on `String`. -/
def squash (s : String) : String := ⟨squash_list s.data⟩

/-- Embedding of `"_".join`-style joining used by `squash_key`. -/
def joinWith (sep : List Char) : List (List Char) → List Char
  | [] => []
  | [x] => x
  | x :: xs => x ++ sep ++ joinWith sep xs

/-- Embedding of `squash_key(*parts)` of `Windows/build_mailmerge_4e_from_merged_v5.py`:
join the parts with `"_"`, `strip_accents_lower`, keep only `[a-z0-9]`. -/
def squash_key_list (parts : List (List Char)) : List Char :=
  (strip_accents_lower_list (joinWith ['_'] parts)).filter isLowerAlnum

/-- Embedding of `squash_key` on `String` parts. -/
def squash_key (parts : List String) : String :=
  ⟨squash_key_list (parts.map String.data)⟩

/-- Embedding of `squash_key` applied to a single string, as in the spec's idempotence claim. -/
def squash_key1 (s : String) : String := squash_key [s]

/-- Does `p` occur as the initial segment of `l`? -/
def startsWithL {α : Type} [DecidableEq α] : List α → List α → Bool
  | [], _ => true
  | _ :: _, [] => false
  | p :: ps, x :: xs => if p = x then startsWithL ps xs else false

/-- Does `p` occur contiguously anywhere in `l` (Python `p in l`)? -/
def containsSeqL {α : Type} [DecidableEq α] (p : List α) : List α → Bool
  | [] => p.isEmpty
  | x :: xs => startsWithL p (x :: xs) || containsSeqL p xs

/-- Fuelled worker for `str.replace`: left-to-right, non-overlapping. -/
def replaceGo {α : Type} [DecidableEq α] : Nat → List α → List α → List α → List α
  | 0, _, _, s => s
  | _ + 1, _, _, [] => []
  | n + 1, pat, rep, c :: cs =>
    if 0 < pat.length && startsWithL pat (c :: cs) then
      rep ++ replaceGo n pat rep ((c :: cs).drop pat.length)
    else
      c :: replaceGo n pat rep cs

/-- Embedding of `s.replace(pat, rep)` for a non-empty pattern (all uses in the scripts have
non-empty patterns; `s.length` fuel always suffices because each step consumes
at least one element). -/
def replaceSub {α : Type} [DecidableEq α] (pat rep s : List α) : List α :=
  replaceGo s.length pat rep s

/-- The Excel-export unwrap regex `^=\s*"(.+)"\s*$` shared by `_canon_div`,
`normalize_div` and the pipeline: `'='`, optional whitespace, an opening quote,
a non-empty newline-free body (greedy), a closing quote, trailing whitespace.
The closing quote of a successful match is necessarily the last quote followed
only by whitespace. -/
def excelParse (s : List Char) : Option (List Char) :=
  match s with
  | '=' :: rest =>
    match rest.dropWhile isWsChar with
    | '"' :: body =>
      match body.reverse.dropWhile isWsChar with
      | '"' :: revMid =>
        let mid := revMid.reverse
        if 0 < mid.length && !(mid.elem '\n') then some mid else none
      | _ => none
    | _ => none
  | _ => none

/-- Whether a string has the Excel-quoted shape the unwrap regex accepts. -/
def excelShape (s : String) : Bool := (excelParse s.data).isSome

/-- The uppercase `"ÈME"` literal of `_canon_div`. -/
def egraveME : List Char := ['È', 'M', 'E']

/-- The uppercase `"EME"` literal of `_canon_div`. -/
def emeUpper : List Char := ['E', 'M', 'E']

/-- The character class `[\s\-.]` removed at the end of `_canon_div`. -/
def isStripClassChar (c : Char) : Bool := isWsChar c || c == '-' || c == '.'

/-- Embedding of `_canon_div` of `Windows/merge_parents_4e.py` (= `normalize_div` of
`normalize.py`, and the inline Division normalisation of both
`pipeline_evalnat.py` variants): strip, unwrap the Excel `="…"` quoting, NFD,
uppercase, drop combining marks, replace `"ÈME"`/`"EME"` by `"E"`, and delete
whitespace, hyphens and periods. -/
def canon_div_list (s0 : List Char) : List Char :=
  let s1 := pyStripL s0
  let s2 := (excelParse s1).getD s1
  let s3 := (listFlat nfdChar s2).map pyUpper
  let s4 := s3.filter (fun c => !isMn c)
  let s5 := replaceSub egraveME ['E'] s4
  let s6 := replaceSub emeUpper ['E'] s5
  s6.filter (fun c => !isStripClassChar c)

/-- Embedding of `_canon_div` on `String`. -/
def canon_div (s : String) : String := ⟨canon_div_list s.data⟩

/-! ## Invariance of normalised characters

`foldFix c` says `c` is untouched by NFD, is not a combining mark, and is
lowercase-stable; `upperFix c` is the uppercase analogue.  These are the
character-level facts behind idempotence of the normalisers. -/

/-- A character left fixed by NFD, mark-stripping and lowercasing. -/
def foldFix (c : Char) : Prop := nfdChar c = [c] ∧ isMn c = false ∧ pyLower c = c

/-- A character left fixed by NFD, mark-stripping and uppercasing. -/
def upperFix (c : Char) : Prop := nfdChar c = [c] ∧ isMn c = false ∧ pyUpper c = c

instance (c : Char) : Decidable (foldFix c) := by unfold foldFix; exact inferInstance

instance (c : Char) : Decidable (upperFix c) := by unfold upperFix; exact inferInstance

/-! ## `merge_files` cross-file deduplication (`Windows/merge_parents_4e.py`) -/

/-- One concatenated SIECLE row, restricted to the identity columns plus one
guardian-email column (a representative of the other payload columns). -/
structure SRow where
  division : String
  nom : String
  prenom : String
  courriel1 : String
deriving DecidableEq

/-- Embedding of `keyrow` of `merge_files`: the soft identity key `(canon division,
folded surname, folded given name)`; the name folding there (NFD, lowercase,
drop marks, keep `[a-z0-9]`) is exactly `squash`. -/
def keyrow (r : SRow) : String × String × String :=
  (canon_div r.division, squash r.nom, squash r.prenom)

/-- Embedding of `DataFrame.drop_duplicates(subset=["_key"])`: keep the first row of each
key, preserving order. -/
def dropDupByKey : List SRow → List (String × String × String) → List SRow
  | [], _ => []
  | r :: rs, seen =>
    if keyrow r ∈ seen then dropDupByKey rs seen
    else r :: dropDupByKey rs (keyrow r :: seen)

/-- Code-point lexicographic `≤` on character lists (Python string order). -/
def charListLe : List Char → List Char → Bool
  | [], _ => true
  | _ :: _, [] => false
  | x :: xs, y :: ys => if x = y then charListLe xs ys else decide (x.toNat < y.toNat)

/-- Row order of `sort_values(by=["Division", "Nom de famille", "Prénom 1"])`. -/
def rowLe (a b : SRow) : Bool :=
  if a.division = b.division then
    (if a.nom = b.nom then charListLe a.prenom.data b.prenom.data
     else charListLe a.nom.data b.nom.data)
  else charListLe a.division.data b.division.data

/-- The deduplication performed by `merge_files` on the concatenated frames:
`drop_duplicates` on the soft key, then the stable sort by
Division/Nom/Prénom. -/
def merge_rows (rows : List SRow) : List SRow :=
  List.insertionSort (fun a b => rowLe a b) (dropDupByKey rows [])

/-- The blank-cell mask of the `merge_files` message injection: empty or
whitespace-only, or a `nan`/`none`/`nul`/`null` placeholder. -/
def blankishCell (v : String) : Bool :=
  pyStrip v == "" ||
  (pyStrip (pyLowerStr v) == "nan" || pyStrip (pyLowerStr v) == "none" ||
   pyStrip (pyLowerStr v) == "nul" || pyStrip (pyLowerStr v) == "null")

/-- How `merge_files` injects the optional common message into one
`Message aux parents` / `CorpsMessage` cell: only blank cells are filled. -/
def merge_inject_cell (msg v : String) : String := if blankishCell v then msg else v

/-! ## Division canonicalisation/filter step of `pipeline_evalnat.py` (step 2) -/

/-- One row of `parents_4e_merged.csv` as the pipeline's filter sees it:
optional `Division` and `Classe` columns plus the untouched remaining cells. -/
structure PRow where
  division : Option String
  classe : Option String
  rest : List (String × String)
deriving DecidableEq

/-- Embedding of `r.get("Division") or r.get("Classe") or ""` (Python `or`: an empty string
falls through). -/
def rawDivOr (r : PRow) : String :=
  match r.division with
  | some s => if s = "" then (match r.classe with | some t => t | none => "") else s
  | none => match r.classe with | some t => t | none => ""

/-- First-occurrence deduplication worker (models collecting into a `set`). -/
def dedupStrsGo : List String → List String → List String
  | [], _ => []
  | s :: ss, seen => if s ∈ seen then dedupStrsGo ss seen else s :: dedupStrsGo ss (s :: seen)

/-- First-occurrence deduplication. -/
def dedupStrs (l : List String) : List String := dedupStrsGo l []

/-- Embedding of `sorted(...)` on strings. -/
def sortStrs (l : List String) : List String :=
  List.insertionSort (fun a b => charListLe a.data b.data) l

/-- The diagnostic of the anti-mismatch guard: the sorted set of canonicalised
divisions present in the merged CSV (rows whose stripped raw division is
non-empty). -/
def divisionsSeen (rows : List PRow) : List String :=
  sortStrs (dedupStrs (rows.filterMap fun r =>
    if pyStrip (rawDivOr r) = "" then none else some (canon_div (rawDivOr r))))

/-- Step 2's canonisation/filter of `pipeline_evalnat.py` (`main`, both
variants): keep the rows whose canonicalised division equals
`classe.upper()` — rewriting their `Division` cell to `classe` — and fail fast
with the division diagnostic when no row survives. -/
def canonFilter (classe : String) (rows : List PRow) : Except (List String) (List PRow) :=
  let kept := rows.filterMap fun r =>
    if canon_div (rawDivOr r) = pyUpperStr classe then some {r with division := some classe}
    else none
  if kept.isEmpty then Except.error (divisionsSeen rows) else Except.ok kept

/-! ## Step 3bis of the pipeline: email fill and uniform message injection -/

/-- One row of `mailmerge_<classe>.csv` as step 3bis of `pipeline_evalnat.py`
reads it. -/
structure MMRow where
  classe : String
  nom : String
  prenom : String
  emails : String
  pjFr : String
  pjMa : String
  attachments : String
  annee : String
  objet : String
  corps : String
deriving DecidableEq

/-- The identity key step 3bis computes to look up emails. -/
def mmKey (r : MMRow) : String × String × String :=
  (squash (pyStrip r.classe), squash (pyStrip r.nom), squash (pyStrip r.prenom))

/-- Embedding of `if not (r.get("Emails") or "").strip(): r["Emails"] = emails_index.get(key, "")`. -/
def fillEmails (idx : List ((String × String × String) × String)) (r : MMRow) : MMRow :=
  if pyStrip r.emails = "" then
    {r with emails := (match idx.find? fun e => decide (e.1 = mmKey r) with
                       | some e => e.2
                       | none => "")}
  else r

/-- The uniform-body injection of step 3bis: when a common message is supplied
the `CorpsMessage` cell is assigned unconditionally. -/
def injectBody (msg : Option String) (r : MMRow) : MMRow :=
  match msg with
  | some m => {r with corps := m}
  | none => r

/-- One row of the step 3bis loop: fill empty emails, then inject the body. -/
def processRow (msg : Option String) (idx : List ((String × String × String) × String))
    (r : MMRow) : MMRow :=
  injectBody msg (fillEmails idx r)

/-- First duplicate row: identity only, empty guardian email. -/
def mrowA : SRow := ⟨"4D", "DUPONT", "Alice", ""⟩

/-- Second duplicate row: same identity (up to case), non-empty guardian email. -/
def mrowB : SRow := ⟨"4D", "Dupont", "Alice", "parent@example.fr"⟩

/-- A mailmerge row that already carries a custom, non-empty message body. -/
def mmCustomRow : MMRow :=
  { classe := "4D", nom := "DUPONT", prenom := "Alice", emails := "p@x.fr",
    pjFr := "", pjMa := "", attachments := "", annee := "2025-2026",
    objet := "Obj", corps := "Custom" }

/-! ## Guardian email extraction (`join_emails`, `_canon_email_list`) -/

/-- Embedding of `x.replace(",", ";")`. -/
def commaToSemi (l : List Char) : List Char := l.map fun c => if c = ',' then ';' else c

/-- Python `str.split(sep)` with a one-character separator (empty pieces kept). -/
def splitChar (sep : Char) (l : List Char) : List (List Char) :=
  l.foldr
    (fun c acc =>
      if c = sep then [] :: acc
      else
        match acc with
        | h :: t => (c :: h) :: t
        | [] => [[c]])
    [[]]

/-- Case-insensitive first-seen deduplication of `join_emails`. -/
def dedupByLowerGo : List (List Char) → List (List Char) → List (List Char)
  | [], _ => []
  | e :: es, seen =>
    if seen.elem (e.map pyLower) then dedupByLowerGo es seen
    else e :: dedupByLowerGo es ((e.map pyLower) :: seen)

/-- Embedding of `join_emails(a, b)` of `merge_parents_4e.py` (`fuse_single`), as the list
it builds before the final `";".join`: per argument, normalise `','` to `';'`,
split on `';'`, strip each piece, drop empties; then deduplicate
case-insensitively keeping the original spelling of the first occurrence. -/
def join_emails_list (a b : String) : List String :=
  let parts := [a, b].foldl
    (fun acc x =>
      if pyStrip x ≠ "" then
        acc ++ ((splitChar ';' (commaToSemi x.data)).map pyStripL).filter (fun p => p ≠ [])
      else acc)
    []
  (dedupByLowerGo parts []).map fun l => ⟨l⟩

/-- Embedding of `join_emails(a, b)` itself (`";".join` of the list). -/
def join_emails (a b : String) : String :=
  ⟨joinWith [';'] ((join_emails_list a b).map String.data)⟩

/-- The separator class `[;,/\\\s]` of `_canon_email_list`. -/
def isEmailSep (c : Char) : Bool :=
  c == ';' || c == ',' || c == '/' || c == '\\' || isWsChar c

/-- Fuelled worker for `re.split(r"[…]+", s)`. -/
def splitRunsGo (isSep : Char → Bool) : Nat → List Char → List (List Char)
  | 0, l => [l]
  | n + 1, l =>
    let tok := l.takeWhile fun c => !isSep c
    let rest := l.dropWhile fun c => !isSep c
    match rest with
    | [] => [tok]
    | _ :: _ => tok :: splitRunsGo isSep n (rest.dropWhile isSep)

/-- Embedding of `re.split` on runs of separator characters (empty first/last pieces kept,
consecutive separators collapsed, as the `+` quantifier prescribes). -/
def splitRuns (isSep : Char → Bool) (l : List Char) : List (List Char) :=
  splitRunsGo isSep l.length l

/-- The punctuation stripped from both ends of each candidate address. -/
def emailPunct : List Char :=
  ['.', ',', ';', ':', '(', ')', '[', ']', Char.ofNat 0x7B, Char.ofNat 0x7D, '<', '>']

/-- Embedding of `str.strip(chars)`: remove the given characters from both ends. -/
def stripCharsEnds (cs : List Char) (l : List Char) : List Char :=
  ((l.dropWhile fun c => cs.elem c).reverse.dropWhile fun c => cs.elem c).reverse

/-- The character class `[A-Z0-9._%+-]` of `_EMAIL_RE` (case-insensitive). -/
def emailLocalChars : List Char :=
  "ABCDEFGHIJKLMNOPQRSTUVWXYZabcdefghijklmnopqrstuvwxyz0123456789._%+-".data

/-- The character class `[A-Z0-9.-]` of `_EMAIL_RE` (case-insensitive). -/
def emailDomChars : List Char :=
  "ABCDEFGHIJKLMNOPQRSTUVWXYZabcdefghijklmnopqrstuvwxyz0123456789.-".data

/-- The class `[A-Z]` (case-insensitive) of the top-level-domain part. -/
def alphaChars : List Char :=
  "ABCDEFGHIJKLMNOPQRSTUVWXYZabcdefghijklmnopqrstuvwxyz".data

/-- Embedding of `_EMAIL_RE.match` of `merge_parents_4e.py` (Windows variant):
`^[A-Z0-9._%+-]+@[A-Z0-9.-]+\.[A-Z]{2,}$` with `re.I`.  Neither class contains
`'@'`, so exactly one `'@'` must occur; the `{2,}` letters block cannot contain
a dot, so the matched `\.` is the last dot of the domain. -/
def email_re_match (l : List Char) : Bool :=
  match splitChar '@' l with
  | [loc, dom] =>
    decide (loc ≠ []) && loc.all (fun c => emailLocalChars.elem c) &&
    (let tldRev := dom.reverse.takeWhile fun c => !(c == '.')
     if tldRev.length = dom.length then false
     else
       decide (2 ≤ tldRev.length) && tldRev.all (fun c => alphaChars.elem c) &&
       (let pre := dom.take (dom.length - tldRev.length - 1)
        decide (pre ≠ []) && pre.all fun c => emailDomChars.elem c))
  | _ => false

/-- The accumulator loop of `_canon_email_list`: strip, validate, deduplicate
case-insensitively in first-seen order. -/
def canonEmailGo : List (List Char) → List (List Char) → List (List Char)
  | [], _ => []
  | p :: ps, seen =>
    let q := stripCharsEnds emailPunct (pyStripL p)
    if q = [] then canonEmailGo ps seen
    else if email_re_match q && !(seen.elem (q.map pyLower)) then
      q :: canonEmailGo ps ((q.map pyLower) :: seen)
    else canonEmailGo ps seen

/-- Embedding of `_canon_email_list(*values)` of `Windows/merge_parents_4e.py`. -/
def canon_email_list (values : List String) : List String :=
  (canonEmailGo
    (values.foldl
      (fun acc v => if v = "" then acc else acc ++ splitRuns isEmailSep v.data) [])
    []).map fun l => ⟨l⟩

/-! ## Page classification and subject resolution (`Windows/split_4C.py`) -/

/-- A subject (discipline). -/
inductive Discipline
  | francais
  | mathematiques
deriving DecidableEq

/-- The per-page data `split_pdf` collects in `pages_info`: 1-based page index,
French and Math keyword scores, provisional subject. -/
structure PageInfo where
  idx : Nat
  fr : Nat
  ma : Nat
  disc : Option Discipline
deriving DecidableEq

/-- Embedding of `guess_discipline`, expressed on the scores it is a function of: decide
only when one score dominates by 2, or is ≥ 3 with the other at 0. -/
def guess_discipline (frS maS : Nat) : Option Discipline :=
  if frS = 0 ∧ maS = 0 then none
  else if maS + 2 ≤ frS ∨ (3 ≤ frS ∧ maS = 0) then some .francais
  else if frS + 2 ≤ maS ∨ (3 ≤ maS ∧ frS = 0) then some .mathematiques
  else none

/-- A page entry of `pages_info` (the provisional subject comes from the same
scores). -/
def mkPage (idx frS maS : Nat) : PageInfo := ⟨idx, frS, maS, guess_discipline frS maS⟩

/-- Python `max(items, key=…)`: keep the current best unless a later element's
key is strictly greater (ties keep the earliest element). -/
def pymaxBy (gt : PageInfo → PageInfo → Bool) (h : PageInfo) (t : List PageInfo) : PageInfo :=
  t.foldl (fun best x => if gt x best then x else best) h

/-- Strict order on the key `(d["fr"], -d["idx"])`. -/
def frKeyGt (a b : PageInfo) : Bool :=
  decide (b.fr < a.fr) || (decide (a.fr = b.fr) && decide (a.idx < b.idx))

/-- Strict order on the key `(d["ma"], -d["idx"])`. -/
def maKeyGt (a b : PageInfo) : Bool :=
  decide (b.ma < a.ma) || (decide (a.ma = b.ma) && decide (a.idx < b.idx))

/-- The single-page branch of step 3: keep the provisional subject, otherwise
decide only on a strict lead with a score of at least 2. -/
def resolveSingle (p : PageInfo) : PageInfo :=
  match p.disc with
  | some _ => p
  | none =>
    if p.ma < p.fr ∧ 2 ≤ p.fr then {p with disc := some .francais}
    else if p.fr < p.ma ∧ 2 ≤ p.ma then {p with disc := some .mathematiques}
    else p

/-- Step 3 of `split_pdf` for one student group: stable sort by page index;
with ≥ 2 pages pick the best French and best Math page (ties to the lowest
index), demote on a double win and hand the other subject to the first other
page, then default every still-unassigned page to its locally higher score.
Pages are identified by their page indices, which stand in for Python object
identity (indices are distinct by construction, `idx = i + 1`). -/
def resolveGroup (items : List PageInfo) : List PageInfo :=
  match List.insertionSort (fun a b => a.idx ≤ b.idx) items with
  | [] => []
  | h :: t =>
    if t.isEmpty then [resolveSingle h]
    else
      let bestF := pymaxBy frKeyGt h t
      let bestM := pymaxBy maKeyGt h t
      let altIdx : Option Nat :=
        ((h :: t).find? fun x => decide (x.idx ≠ bestF.idx)).map fun x => x.idx
      (h :: t).map fun p =>
        let d : Option Discipline :=
          if bestF.idx = bestM.idx then
            if bestF.ma ≤ bestF.fr then
              if p.idx = bestF.idx then some .francais
              else if altIdx = some p.idx then some .mathematiques
              else p.disc
            else
              if p.idx = bestM.idx then some .mathematiques
              else if altIdx = some p.idx then some .francais
              else p.disc
          else
            if p.idx = bestF.idx then some .francais
            else if p.idx = bestM.idx then some .mathematiques
            else p.disc
        match d with
        | some dd => {p with disc := some dd}
        | none =>
          {p with disc := some (if p.ma ≤ p.fr then Discipline.francais else .mathematiques)}

/-- Embedding of `by_student.setdefault(name, []).append(info)`. -/
def addToGroup (n : String) (p : PageInfo) :
    List (String × List PageInfo) → List (String × List PageInfo)
  | [] => [(n, [p])]
  | (m, ps) :: rest =>
    if m = n then (m, ps ++ [p]) :: rest else (m, ps) :: addToGroup n p rest

/-- Step 2 of `split_pdf`: group pages by extracted name, in first-seen order;
pages without an extractable name are not grouped. -/
def groupByName (pages : List (Option String × PageInfo)) : List (String × List PageInfo) :=
  pages.foldl (fun acc pr => match pr.1 with | none => acc | some n => addToGroup n pr.2 acc) []

/-- Look up the resolved subject of the page with index `i`. -/
def rGet (l : List PageInfo) (i : Nat) : Option (Option Discipline) :=
  (l.find? fun p => decide (p.idx = i)).map fun p => p.disc

/-! ## Join and missing-document reporting (`build_mailmerge_4e_from_merged_v5.py`) -/

/-- Embedding of `strip_accents` of the main build variant: NFKD, drop combining characters
(NFKD and NFD agree on the modelled repertoire). -/
def strip_accents_build (l : List Char) : List Char :=
  (listFlat nfdChar l).filter fun c => !isMn c

/-- Embedding of `\d` (ASCII digits after accent stripping). -/
def isDigitC (c : Char) : Bool := decide ('0' ≤ c ∧ c ≤ '9')

/-- Embedding of `[A-Z]`. -/
def isUpperAZ (c : Char) : Bool := decide ('A' ≤ c ∧ c ≤ 'Z')

/-- Scan of `\D*([A-Z])` after a matched `[3-6]`: last uppercase letter inside
the maximal digit-free run (greedy `\D*` with backtracking). -/
def lastUpperInRun : List Char → Option Char
  | [] => none
  | c :: cs =>
    if isDigitC c then none
    else
      match lastUpperInRun cs with
      | some u => some u
      | none => if isUpperAZ c then some c else none

/-- Embedding of `re.search(r"([3-6])\D*([A-Z])", s)`: leftmost start, greedy run. -/
def divSearch : List Char → Option (Char × Char)
  | [] => none
  | c :: cs =>
    if decide ('3' ≤ c) && decide (c ≤ '6') then
      match lastUpperInRun cs with
      | some u => some (c, u)
      | none => divSearch cs
    else divSearch cs

/-- Fuelled worker for `re.sub(r"(?<=\d)\s+(?=[A-Z])", "", s)`: delete a
whitespace run squeezed between a digit and an uppercase letter. -/
def rmDigitWsUpperGo : Nat → List Char → List Char
  | 0, l => l
  | _ + 1, [] => []
  | n + 1, c :: rest =>
    if isDigitC c then
      let run := rest.takeWhile isWsChar
      match rest.drop run.length with
      | u :: after =>
        if 0 < run.length && isUpperAZ u then c :: rmDigitWsUpperGo n (u :: after)
        else c :: rmDigitWsUpperGo n rest
      | [] => c :: rmDigitWsUpperGo n rest
    else c :: rmDigitWsUpperGo n rest

/-- Embedding of `re.sub(r"(?<=\d)\s+(?=[A-Z])", "", s)`. -/
def rm_digit_ws_upper (l : List Char) : List Char := rmDigitWsUpperGo l.length l

/-- Embedding of `norm_div` of the main build variant (named `norm_div_v5` here to avoid clashing with a Mathlib lemma): strip accents, uppercase, NBSP to
space, strip; then extract `([3-6])\D*([A-Z])` as `"<digit><letter>"`, or fall
back to deleting digit–uppercase whitespace. -/
def norm_div_v5 (s : String) : String :=
  if s = "" then ""
  else
    let t := pyStripL (((strip_accents_build s.data).map pyUpper).map
      fun c => if c.toNat = 0xA0 then ' ' else c)
    match divSearch t with
    | some (d, u) => ⟨[d, u]⟩
    | none => ⟨rm_digit_ws_upper t⟩

/-- The quote-like marks removed by `norm_name_token`. -/
def quoteMarks : List Char := ['\'', '’', Char.ofNat 0x60, '^', '¨', '~']

/-- The class `[a-z]`. -/
def lowerAlphaChars : List Char := "abcdefghijklmnopqrstuvwxyz".data

/-- Embedding of `norm_name_token`: strip accents, lowercase, strip, drop quote-like marks,
keep only `[a-z]`. -/
def norm_name_token (s : String) : String :=
  let t := pyStripL ((strip_accents_build s.data).map pyLower)
  ⟨(t.filter fun c => !quoteMarks.elem c).filter fun c => lowerAlphaChars.elem c⟩

/-- The split class `[\s\-]` of the name tokenisers. -/
def isNameSep (c : Char) : Bool := isWsChar c || c == '-'

/-- Ascending `sorted(...)` on token lists (code-point order). -/
def sortCharLists (ls : List (List Char)) : List (List Char) :=
  List.insertionSort (fun a b => charListLe a b) ls

/-- Embedding of `surname_key_from_tokens`: normalise each token, drop empties, sort,
concatenate. -/
def surname_key_from_tokens (tokens : List (List Char)) : String :=
  ⟨joinWith []
    (sortCharLists ((tokens.map fun t => (norm_name_token ⟨t⟩).data).filter fun t => t ≠ []))⟩

/-- Embedding of `surname_key_from_csv_nom`: strip accents, strip, split on `[\s\-]+`,
then `surname_key_from_tokens`. -/
def surname_key_from_csv_nom (nom : String) : String :=
  surname_key_from_tokens
    ((splitRuns isNameSep (pyStripL (strip_accents_build nom.data))).filter fun t => t ≠ [])

/-- A catalog key `(division, given-name concat, surname key, discipline, year)`. -/
def SKey : Type := String × String × String × String × String

instance : DecidableEq SKey := by unfold SKey; exact inferInstance

/-- Embedding of `catalog.get(key, "")` over the indexed PDFs (the catalog is a dict, so
keys are unique; an association list with the first match models it). -/
def lookupCat (cat : List (SKey × String)) (k : SKey) : String :=
  match cat.find? fun e => decide (e.1 = k) with
  | some e => e.2
  | none => ""

/-- Embedding of `MESSAGE_TYPE` of `build_mailmerge_4e_from_merged_v5.py`. -/
def MESSAGE_TYPE : String :=
  "Madame, Monsieur,\n\nVeuillez trouver en pièces jointes les comptes rendus des évaluations nationales passées par vos enfants.\nLes enseignants reviendront dessus lors des remises de bulletins. Vous pourrez poser toutes les questions s'y rapportant lors de ce rendez-vous.\n\nBien cordialement,\nPour l'équipe de direction,"

/-- One row of the canonical parents CSV as the main build variant reads it. -/
structure CRow where
  nom : String
  prenom : String
  division : String
  courriel1 : String
  courriel2 : String
deriving DecidableEq

/-- One output row of the main build variant. -/
structure SrcOut where
  classe : String
  nom : String
  prenom : String
  emails : String
  pjFr : String
  pjMa : String
  attachments : String
  annee : String
  objet : String
  corps : String
deriving DecidableEq

/-- One row of the missing-document report of the main build variant. -/
structure SrcMiss where
  division : String
  nom : String
  prenom : String
  attFr1 : String
  attFr2 : String
  attMa1 : String
  attMa2 : String
  exemples : String
deriving DecidableEq

/-- The alternate surname keys of the fallback: the set of non-empty
normalised name tokens.  Python iterates a `set` in unspecified order; the
model fixes first-appearance order. -/
def altSurKeys (nom : String) : List String :=
  dedupStrs
    ((((splitRuns isNameSep (pyStripL (strip_accents_build nom.data))).filter
        fun t => t ≠ []).map fun t => norm_name_token ⟨t⟩).filter fun t => t ≠ "")

/-- The fallback loop `for ak in alt_sur_keys: pj = catalog.get(…, pj); if pj:
break`: the first non-empty hit, else `""`. -/
def firstAltHit (cat : List (SKey × String)) (divN prenN disc annee : String)
    (alts : List String) : String :=
  match alts.find? fun ak => decide (lookupCat cat (divN, prenN, ak, disc, annee) ≠ "") with
  | some ak => lookupCat cat (divN, prenN, ak, disc, annee)
  | none => ""

/-- The guardian-emails cell: join the two columns with `';'`, then drop empty
pieces. -/
def srcEmails (e1 e2 : String) : String :=
  ⟨joinWith [';']
    ((splitChar ';' (joinWith [';'] [pyStripL e1.data, pyStripL e2.data])).filter
      fun e => e ≠ [])⟩

/-- Embedding of `by_div.get(divN, [])`. -/
def lookupByDiv (byDiv : List (String × List String)) (d : String) : List String :=
  match byDiv.find? fun e => decide (e.1 = d) with
  | some e => e.2
  | none => []

/-- Embedding of `", ".join(...)`. -/
def joinCommaSpace (ls : List String) : String :=
  ⟨joinWith [',', ' '] (ls.map String.data)⟩

/-- The per-subject document lookup of the main build variant's loop: the
catalog lookup on `(divN, prenN, surKey, disc, annee)` with the
alternate-surname-token fallback when it misses. -/
def srcPj (cat : List (SKey × String)) (disc annee : String) (r : CRow) : String :=
  let nomRaw := pyStrip r.nom
  let divN := norm_div_v5 (pyStrip r.division)
  let prenN := norm_name_token (pyStrip r.prenom)
  let surKey := surname_key_from_csv_nom nomRaw
  let pj0 := lookupCat cat (divN, prenN, surKey, disc, annee)
  if pj0 = "" then firstAltHit cat divN prenN disc annee (altSurKeys nomRaw) else pj0

/-- The mailmerge output row the main build variant emits for one row. -/
def srcOutRow (cat : List (SKey × String)) (annee : String) (r : CRow) : SrcOut :=
  let nomRaw := pyStrip r.nom
  let prenomRaw := pyStrip r.prenom
  let divN := norm_div_v5 (pyStrip r.division)
  let nomU := pyUpperStr nomRaw
  let pjFr := srcPj cat "francais" annee r
  let pjMa := srcPj cat "mathematiques" annee r
  { classe := divN, nom := nomU, prenom := prenomRaw,
    emails := srcEmails r.courriel1 r.courriel2,
    pjFr := pjFr, pjMa := pjMa,
    attachments := ⟨joinWith [';'] (([pjFr, pjMa].filter fun p => p ≠ "").map String.data)⟩,
    annee := annee,
    objet := "Évaluations nationales – " ++ nomU ++ " " ++ prenomRaw ++ " (" ++ divN ++ ")",
    corps := MESSAGE_TYPE }

/-- The missing-report row the main build variant emits when neither subject
was found: identity plus the candidate expected filenames for both subjects. -/
def srcMissRow (byDiv : List (String × List String)) (annee : String) (r : CRow) : SrcMiss :=
  let nomRaw := pyStrip r.nom
  let prenomRaw := pyStrip r.prenom
  let divN := norm_div_v5 (pyStrip r.division)
  let nomU := pyUpperStr nomRaw
  let toks := (splitRuns isNameSep (pyStripL nomRaw.data)).filter fun t => t ≠ []
  let nom1 := match toks with
    | [] => nomU
    | t :: _ => pyUpperStr ⟨t⟩
  let nom2 := if 2 ≤ toks.length then pyUpperStr ⟨(toks.getLast?).getD []⟩ else ""
  { division := divN, nom := nomRaw, prenom := prenomRaw,
    attFr1 := divN ++ "_" ++ nomU ++ "_" ++ prenomRaw ++ "_Français_" ++ annee ++ ".pdf",
    attFr2 := if nom2 ≠ "" then
        divN ++ "_" ++ nom1 ++ "_" ++ prenomRaw ++ "_" ++ nom2 ++ "_Français_" ++ annee ++ ".pdf"
      else "",
    attMa1 := divN ++ "_" ++ nomU ++ "_" ++ prenomRaw ++ "_Mathématiques_" ++ annee ++ ".pdf",
    attMa2 := if nom2 ≠ "" then
        divN ++ "_" ++ nom1 ++ "_" ++ prenomRaw ++ "_" ++ nom2 ++ "_Mathématiques_" ++
          annee ++ ".pdf"
      else "",
    exemples := joinCommaSpace ((lookupByDiv byDiv divN).take 12) }

/-- One iteration of the main loop of the main build variant (`main`): skip
rows missing an identity field; join both subjects through the catalog with
the alternate-surname fallback; emit the output row; emit a missing-report row
only when *neither* subject was found. -/
def src_join_row (cat : List (SKey × String)) (byDiv : List (String × List String))
    (annee : String) (r : CRow) : Option (SrcOut × Option SrcMiss) :=
  if pyStrip r.nom = "" ∨ pyStrip r.prenom = "" ∨ pyStrip r.division = "" then none
  else
    some (srcOutRow cat annee r,
      if srcPj cat "francais" annee r = "" ∧ srcPj cat "mathematiques" annee r = "" then
        some (srcMissRow byDiv annee r)
      else none)

/-- One parents row of the Windows build variant. -/
structure WRow where
  division : String
  nom : String
  prenom : String
deriving DecidableEq

/-- One mailmerge output row of the Windows build variant. -/
structure WOut where
  classe : String
  nom : String
  prenom : String
  pjFr : String
  pjMa : String
  attachments : String
deriving DecidableEq

/-- One missing-report row of the Windows build variant: per-subject flags,
no filenames. -/
structure WMiss where
  classe : String
  nom : String
  prenom : String
  manqueFr : String
  manqueMa : String
deriving DecidableEq

/-- Embedding of `pdf_fr_map.get(key, "")` / `pdf_ma_map.get(key, "")`. -/
def lookupStrMap (m : List (String × String)) (k : String) : String :=
  match m.find? fun e => decide (e.1 = k) with
  | some e => e.2
  | none => ""

/-- One iteration of the compose loop of `build_mailmerge` (Windows variant):
squash-key join against the two per-subject maps; a missing-report row is
emitted when *either* subject is missing, carrying only `oui` flags. -/
def win_join_row (frMap maMap : List (String × String)) (r : WRow) : WOut × Option WMiss :=
  let key := squash_key [r.division, r.nom, r.prenom]
  let pjFr := lookupStrMap frMap key
  let pjMa := lookupStrMap maMap key
  let out : WOut :=
    { classe := r.division, nom := r.nom, prenom := r.prenom,
      pjFr := pjFr, pjMa := pjMa,
      attachments := joinCommaSpace ([pjFr, pjMa].filter fun p => p ≠ "") }
  let miss : Option WMiss :=
    if pjFr = "" ∨ pjMa = "" then
      some { classe := r.division, nom := r.nom, prenom := r.prenom,
             manqueFr := if pjFr = "" then "oui" else "",
             manqueMa := if pjMa = "" then "oui" else "" }
    else none
  (out, miss)

/-- The canonical parents row used in the missing-report scenarios. -/
def c4row : CRow := ⟨"DUPONT", "Alice", "4D", "", ""⟩

/-- A catalog holding only the French document of that student. -/
def c4cat : List (SKey × String) :=
  [(("4D", "alice", "dupont", "francais", "2025-2026"), "PJ1.pdf")]

/-! ## Encoding detection of `open_csv_reader`
(`Windows/build_mailmerge_4e_from_merged_v5.py`) -/

/-- A UTF-8 continuation byte `0x80–0xBF`. -/
def contByte (b : Nat) : Bool := decide (128 ≤ b ∧ b ≤ 191)

/-- Strict UTF-8 decoding (CPython `bytes.decode("utf-8")`): rejects stray
continuation bytes, overlong forms, surrogates and values above `U+10FFFF`;
returns the code points on success. -/
def utf8Decode : List Nat → Option (List Nat)
  | [] => some []
  | b :: rest =>
    if b ≤ 127 then (utf8Decode rest).map fun t => b :: t
    else if 194 ≤ b ∧ b ≤ 223 then
      match rest with
      | b1 :: r =>
        if contByte b1 then (utf8Decode r).map fun t => ((b - 192) * 64 + (b1 - 128)) :: t
        else none
      | [] => none
    else if 224 ≤ b ∧ b ≤ 239 then
      match rest with
      | b1 :: b2 :: r =>
        if (if b = 224 then decide (160 ≤ b1 ∧ b1 ≤ 191)
            else if b = 237 then decide (128 ≤ b1 ∧ b1 ≤ 159)
            else contByte b1) && contByte b2 then
          (utf8Decode r).map fun t =>
            ((b - 224) * 4096 + (b1 - 128) * 64 + (b2 - 128)) :: t
        else none
      | _ => none
    else if 240 ≤ b ∧ b ≤ 244 then
      match rest with
      | b1 :: b2 :: b3 :: r =>
        if (if b = 240 then decide (144 ≤ b1 ∧ b1 ≤ 191)
            else if b = 244 then decide (128 ≤ b1 ∧ b1 ≤ 143)
            else contByte b1) && contByte b2 && contByte b3 then
          (utf8Decode r).map fun t =>
            ((b - 240) * 262144 + (b1 - 128) * 4096 + (b2 - 128) * 64 + (b3 - 128)) :: t
        else none
      | _ => none
    else none

/-- CP1252 decoding of one byte; the five unassigned bytes raise in strict
mode. -/
def cp1252Byte (b : Nat) : Option Nat :=
  if 256 ≤ b then none
  else if b ≤ 127 then some b
  else if 160 ≤ b then some b
  else
    match b with
    | 128 => some 0x20AC
    | 130 => some 0x201A
    | 131 => some 0x0192
    | 132 => some 0x201E
    | 133 => some 0x2026
    | 134 => some 0x2020
    | 135 => some 0x2021
    | 136 => some 0x02C6
    | 137 => some 0x2030
    | 138 => some 0x0160
    | 139 => some 0x2039
    | 140 => some 0x0152
    | 142 => some 0x017D
    | 145 => some 0x2018
    | 146 => some 0x2019
    | 147 => some 0x201C
    | 148 => some 0x201D
    | 149 => some 0x2022
    | 150 => some 0x2013
    | 151 => some 0x2014
    | 152 => some 0x02DC
    | 153 => some 0x2122
    | 154 => some 0x0161
    | 155 => some 0x203A
    | 156 => some 0x0153
    | 158 => some 0x017E
    | 159 => some 0x0178
    | _ => none

/-- Strict CP1252 decoding of a byte sequence. -/
def cp1252Decode (bs : List Nat) : Option (List Nat) :=
  bs.foldr
    (fun b acc =>
      match cp1252Byte b, acc with
      | some c, some t => some (c :: t)
      | _, _ => none)
    (some [])

/-- The double-encoding artifact test of `open_csv_reader`, on code points:
`"ï¿½" in txt or "Ã©" in txt or "Ã¨" in txt or "Ãª" in txt or "Ã«" in txt
or "Ã" in txt`. -/
def hasMojibakeArtifact (txt : List Nat) : Bool :=
  containsSeqL [239, 191, 189] txt || containsSeqL [195, 169] txt ||
  containsSeqL [195, 168] txt || containsSeqL [195, 170] txt ||
  containsSeqL [195, 171] txt || containsSeqL [195] txt

/-- The reader configuration `open_csv_reader` ends up opening the file with. -/
inductive CsvEnc
  | utf8sig
  | cp1252
  | utf8sigFallback
deriving DecidableEq

/-- Embedding of `open_csv_reader`'s decision chain, byte-for-byte from the source: strict
UTF-8 probe (open as `utf-8-sig` on success); otherwise CP1252 probe; if that
succeeds but the text shows mojibake artifacts, re-attempt the UTF-8 probe
(and open as `utf-8-sig` if it now succeeds) before settling on CP1252;
`utf-8-sig` is the last resort when CP1252 also fails. -/
def open_csv_enc (raw : List Nat) : CsvEnc :=
  match utf8Decode raw with
  | some _ => .utf8sig
  | none =>
    match cp1252Decode raw with
    | some txt =>
      if hasMojibakeArtifact txt then
        match utf8Decode raw with
        | some _ => .utf8sig
        | none => .cp1252
      else .cp1252
    | none => .utf8sigFallback

/-! ## Theorems -/

theorem lookup_eq_none_of_forall_ne {α β : Type} [BEq α] [LawfulBEq α]
    (l : List (α × β)) (c : α) (h : ∀ p ∈ l, c ≠ p.1) : l.lookup c = none := by
  induction l with
  | nil => rfl
  | cons p rest ih =>
    have hne : c ≠ p.1 := h p (List.mem_cons_self p rest)
    have : (c == p.1) = false := beq_false_of_ne hne
    simp only [List.lookup, this]
    exact ih fun q hq => h q (List.mem_cons_of_mem p hq)

theorem not_mem_of_not_special {c : Char} (h : c ∉ specialChars) :
    (∀ p ∈ nfdTable, c ≠ p.1) ∧ (∀ p ∈ lowerTable, c ≠ p.1) ∧
    (∀ p ∈ upperTable, c ≠ p.1) ∧ c ∉ markChars := by
  refine ⟨?_, ?_, ?_, ?_⟩
  · intro p hp he
    exact h (by
      unfold specialChars
      exact List.mem_append_left _ (List.mem_append_left _
        (List.mem_append_left _ (he ▸ List.mem_map_of_mem Prod.fst hp))))
  · intro p hp he
    exact h (by
      unfold specialChars
      exact List.mem_append_left _ (List.mem_append_left _
        (List.mem_append_right _ (he ▸ List.mem_map_of_mem Prod.fst hp))))
  · intro p hp he
    exact h (by
      unfold specialChars
      exact List.mem_append_left _
        (List.mem_append_right _ (he ▸ List.mem_map_of_mem Prod.fst hp)))
  · intro hm
    exact h (by unfold specialChars; exact List.mem_append_right _ hm)

theorem nfdChar_eq_of_not_special {c : Char} (h : c ∉ specialChars) : nfdChar c = [c] := by
  unfold nfdChar
  rw [lookup_eq_none_of_forall_ne _ _ (not_mem_of_not_special h).1]
  rfl

theorem pyLower_eq_of_not_special {c : Char} (h : c ∉ specialChars) : pyLower c = c := by
  unfold pyLower
  rw [lookup_eq_none_of_forall_ne _ _ (not_mem_of_not_special h).2.1]
  rfl

theorem pyUpper_eq_of_not_special {c : Char} (h : c ∉ specialChars) : pyUpper c = c := by
  unfold pyUpper
  rw [lookup_eq_none_of_forall_ne _ _ (not_mem_of_not_special h).2.2.1]
  rfl

theorem isMn_eq_false_of_not_special {c : Char} (h : c ∉ specialChars) : isMn c = false := by
  unfold isMn
  cases he : markChars.elem c
  · rfl
  · exact absurd (List.mem_of_elem_eq_true he) (not_mem_of_not_special h).2.2.2

theorem fold_special : ∀ e ∈ specialChars, ∀ d ∈ nfdChar e,
    isMn d = false → foldFix (pyLower d) := by decide

theorem upper_special : ∀ e ∈ specialChars, ∀ d ∈ nfdChar e,
    isMn (pyUpper d) = false → upperFix (pyUpper d) := by decide

theorem foldFix_pyLower {e d : Char} (hd : d ∈ nfdChar e) (hMn : isMn d = false) :
    foldFix (pyLower d) := by
  by_cases he : e ∈ specialChars
  · exact fold_special e he d hd hMn
  · rw [nfdChar_eq_of_not_special he, List.mem_singleton] at hd
    subst hd
    rw [pyLower_eq_of_not_special he]
    exact ⟨nfdChar_eq_of_not_special he, hMn, pyLower_eq_of_not_special he⟩

theorem upperFix_pyUpper {e d : Char} (hd : d ∈ nfdChar e)
    (hMn : isMn (pyUpper d) = false) : upperFix (pyUpper d) := by
  by_cases he : e ∈ specialChars
  · exact upper_special e he d hd hMn
  · rw [nfdChar_eq_of_not_special he, List.mem_singleton] at hd
    subst hd
    rw [pyUpper_eq_of_not_special he] at hMn ⊢
    exact ⟨nfdChar_eq_of_not_special he, hMn, pyUpper_eq_of_not_special he⟩

theorem mem_of_mem_listFlat {f : Char → List Char} {l : List Char} {d : Char}
    (h : d ∈ listFlat f l) : ∃ c ∈ l, d ∈ f c := by
  induction l with
  | nil => cases h
  | cons c cs ih =>
    rcases List.mem_append.1 h with hc | hcs
    · exact ⟨c, List.mem_cons_self c cs, hc⟩
    · obtain ⟨e, he, hd⟩ := ih hcs
      exact ⟨e, List.mem_cons_of_mem c he, hd⟩

theorem listFlat_eq_self {f : Char → List Char} {l : List Char}
    (h : ∀ c ∈ l, f c = [c]) : listFlat f l = l := by
  induction l with
  | nil => rfl
  | cons c cs ih =>
    simp only [listFlat, h c (List.mem_cons_self c cs)]
    rw [ih fun d hd => h d (List.mem_cons_of_mem c hd)]
    rfl

theorem map_eq_self_of_fix {f : Char → Char} {l : List Char}
    (h : ∀ c ∈ l, f c = c) : l.map f = l := by
  induction l with
  | nil => rfl
  | cons c cs ih =>
    simp only [List.map, h c (List.mem_cons_self c cs)]
    rw [ih fun d hd => h d (List.mem_cons_of_mem c hd)]

theorem filter_eq_self_of_true {p : Char → Bool} {l : List Char}
    (h : ∀ c ∈ l, p c = true) : l.filter p = l := by
  induction l with
  | nil => rfl
  | cons c cs ih =>
    simp only [List.filter, h c (List.mem_cons_self c cs)]
    rw [ih fun d hd => h d (List.mem_cons_of_mem c hd)]

/-! ## Idempotence facts for `strip_accents_lower`, `squash`, `squash_key` -/

theorem strip_accents_lower_list_chars {s : List Char} {c : Char}
    (h : c ∈ strip_accents_lower_list s) : foldFix c := by
  unfold strip_accents_lower_list at h
  obtain ⟨d, hd, hc⟩ := List.mem_map.1 h
  have hdf := List.mem_filter.1 hd
  have hMn : isMn d = false := by
    have := hdf.2
    simpa using this
  obtain ⟨e, _, hde⟩ := mem_of_mem_listFlat hdf.1
  exact hc ▸ foldFix_pyLower hde hMn

theorem strip_accents_lower_list_eq_self {s : List Char}
    (h : ∀ c ∈ s, foldFix c) : strip_accents_lower_list s = s := by
  unfold strip_accents_lower_list
  rw [listFlat_eq_self fun c hc => (h c hc).1]
  rw [filter_eq_self_of_true fun c hc => by simp [(h c hc).2.1]]
  exact map_eq_self_of_fix fun c hc => (h c hc).2.2

theorem strip_accents_lower_idem (s : String) :
    strip_accents_lower (strip_accents_lower s) = strip_accents_lower s :=
  congrArg String.mk
    (strip_accents_lower_list_eq_self fun _ hc => strip_accents_lower_list_chars hc)

theorem lowAlnum_foldFix : ∀ c ∈ lowAlnumChars, foldFix c := by decide

theorem squash_list_chars {s : List Char} {c : Char}
    (h : c ∈ squash_list s) : foldFix c ∧ isLowerAlnum c = true := by
  unfold squash_list at h
  have h1 := List.mem_filter.1 h
  refine ⟨lowAlnum_foldFix c (List.mem_of_elem_eq_true h1.2), h1.2⟩

theorem squash_list_eq_self {s : List Char}
    (h : ∀ c ∈ s, foldFix c ∧ isLowerAlnum c = true) : squash_list s = s := by
  unfold squash_list
  rw [listFlat_eq_self fun c hc => (h c hc).1.1,
    map_eq_self_of_fix fun c hc => (h c hc).1.2.2,
    filter_eq_self_of_true (p := fun c => !isMn c) fun c hc => by simp [(h c hc).1.2.1],
    filter_eq_self_of_true fun c hc => (h c hc).2]

theorem squash_idem (s : String) : squash (squash s) = squash s :=
  congrArg String.mk (squash_list_eq_self fun _ hc => squash_list_chars hc)

theorem squash_key_list_chars {parts : List (List Char)} {c : Char}
    (h : c ∈ squash_key_list parts) : foldFix c ∧ isLowerAlnum c = true := by
  unfold squash_key_list at h
  have h1 := List.mem_filter.1 h
  refine ⟨lowAlnum_foldFix c (List.mem_of_elem_eq_true h1.2), h1.2⟩

theorem squash_key1_idem (s : String) : squash_key1 (squash_key1 s) = squash_key1 s := by
  unfold squash_key1 squash_key
  refine congrArg String.mk ?_
  show squash_key_list [squash_key_list [s.data]] = squash_key_list [s.data]
  generalize hq : squash_key_list [s.data] = t
  have hch : ∀ c ∈ t, foldFix c ∧ isLowerAlnum c = true := fun c hc =>
    squash_key_list_chars (hq ▸ hc)
  show List.filter isLowerAlnum (strip_accents_lower_list (joinWith ['_'] [t])) = t
  have hj : joinWith ['_'] [t] = t := rfl
  rw [hj, strip_accents_lower_list_eq_self fun c hc => (hch c hc).1]
  exact filter_eq_self_of_true fun c hc => (hch c hc).2

/-! ## `str.replace` lemmas and conditional idempotence of `canon_div` -/

theorem replaceGo_chars {α : Type} [DecidableEq α] :
    ∀ (n : Nat) (pat rep s : List α) (c : α), c ∈ replaceGo n pat rep s → c ∈ rep ∨ c ∈ s := by
  intro n
  induction n with
  | zero => intro pat rep s c h; exact Or.inr h
  | succ n ih =>
    intro pat rep s c h
    cases s with
    | nil => cases h
    | cons x xs =>
      unfold replaceGo at h
      by_cases hc : 0 < pat.length && startsWithL pat (x :: xs)
      · rw [if_pos hc] at h
        rcases List.mem_append.1 h with hr | hrec
        · exact Or.inl hr
        · rcases ih pat rep _ c hrec with hr | hs
          · exact Or.inl hr
          · exact Or.inr (List.drop_subset _ _ hs)
      · rw [if_neg hc] at h
        rcases List.mem_cons.1 h with he | hrec
        · exact Or.inr (he ▸ List.mem_cons_self x xs)
        · rcases ih pat rep xs c hrec with hr | hs
          · exact Or.inl hr
          · exact Or.inr (List.mem_cons_of_mem x hs)

theorem replaceSub_chars {α : Type} [DecidableEq α] {pat rep s : List α} {c : α}
    (h : c ∈ replaceSub pat rep s) : c ∈ rep ∨ c ∈ s :=
  replaceGo_chars s.length pat rep s c h

theorem replaceGo_eq_self {α : Type} [DecidableEq α] :
    ∀ (n : Nat) (pat rep s : List α), containsSeqL pat s = false → replaceGo n pat rep s = s := by
  intro n
  induction n with
  | zero => intro pat rep s _; rfl
  | succ n ih =>
    intro pat rep s h
    cases s with
    | nil => rfl
    | cons x xs =>
      unfold containsSeqL at h
      have hsw : startsWithL pat (x :: xs) = false := by
        cases hs : startsWithL pat (x :: xs)
        · rfl
        · rw [hs] at h; simp at h
      have hxs : containsSeqL pat xs = false := by
        cases ht : containsSeqL pat xs
        · rfl
        · rw [ht] at h; simp at h
      unfold replaceGo
      rw [if_neg (by simp [hsw]), ih pat rep xs hxs]

theorem replaceSub_eq_self {α : Type} [DecidableEq α] {pat rep s : List α}
    (h : containsSeqL pat s = false) : replaceSub pat rep s = s :=
  replaceGo_eq_self s.length pat rep s h

theorem containsSeqL_eq_false_of_head_not_mem {α : Type} [DecidableEq α]
    {p : α} {ps s : List α} (h : p ∉ s) : containsSeqL (p :: ps) s = false := by
  induction s with
  | nil => rfl
  | cons x xs ih =>
    have hpx : p ≠ x := fun he => h (he ▸ List.mem_cons_self x xs)
    unfold containsSeqL startsWithL
    rw [if_neg hpx]
    simpa using ih fun hm => h (List.mem_cons_of_mem x hm)

theorem dropWhile_eq_self_of_chars {p : Char → Bool} {l : List Char}
    (h : ∀ c ∈ l, p c = false) : l.dropWhile p = l := by
  cases l with
  | nil => rfl
  | cons c cs =>
    unfold List.dropWhile
    rw [h c (List.mem_cons_self c cs)]

theorem pyStripL_eq_self {l : List Char} (h : ∀ c ∈ l, isWsChar c = false) :
    pyStripL l = l := by
  unfold pyStripL
  rw [dropWhile_eq_self_of_chars h,
    dropWhile_eq_self_of_chars fun c hc => h c (List.mem_reverse.1 hc),
    List.reverse_reverse]

theorem canon_div_list_chars {s : List Char} {c : Char} (h : c ∈ canon_div_list s) :
    upperFix c ∧ isStripClassChar c = false := by
  unfold canon_div_list at h
  have h6 := List.mem_filter.1 h
  have hcls : isStripClassChar c = false := by simpa using h6.2
  refine ⟨?_, hcls⟩
  rcases replaceSub_chars h6.1 with hE | h5
  · have : c = 'E' := by simpa using hE
    subst this; decide
  rcases replaceSub_chars h5 with hE | h4
  · have : c = 'E' := by simpa using hE
    subst this; decide
  have h4f := List.mem_filter.1 h4
  have hMn : isMn c = false := by simpa using h4f.2
  obtain ⟨d, hd, hc⟩ := List.mem_map.1 h4f.1
  obtain ⟨e, _, hde⟩ := mem_of_mem_listFlat hd
  exact hc ▸ upperFix_pyUpper hde (hc ▸ hMn)

theorem isWsChar_eq_false_of_not_stripclass {c : Char} (h : isStripClassChar c = false) :
    isWsChar c = false := by
  unfold isStripClassChar at h
  cases hw : isWsChar c
  · rfl
  · rw [hw] at h; simp at h

theorem canon_div_list_idem {s : List Char}
    (hsh : (excelParse (canon_div_list s)).isSome = false)
    (heme : containsSeqL emeUpper (canon_div_list s) = false) :
    canon_div_list (canon_div_list s) = canon_div_list s := by
  generalize ht : canon_div_list s = t at hsh heme
  have hch : ∀ c ∈ t, upperFix c ∧ isStripClassChar c = false := fun c hc =>
    canon_div_list_chars (ht ▸ hc)
  have hnone : excelParse t = none := by
    cases hp : excelParse t
    · rfl
    · rw [hp] at hsh; simp at hsh
  have hegrave : ('È' : Char) ∉ t := by
    intro hmem
    have := (hch _ hmem).1.1
    exact absurd this (by decide)
  have hcont : containsSeqL egraveME t = false :=
    containsSeqL_eq_false_of_head_not_mem hegrave
  show List.filter (fun c => !isStripClassChar c)
      (replaceSub emeUpper ['E'] (replaceSub egraveME ['E']
        (List.filter (fun c => !isMn c)
          ((listFlat nfdChar ((excelParse (pyStripL t)).getD (pyStripL t))).map pyUpper)))) = t
  rw [pyStripL_eq_self fun c hc => isWsChar_eq_false_of_not_stripclass (hch c hc).2, hnone,
    Option.getD_none,
    listFlat_eq_self fun c hc => (hch c hc).1.1,
    map_eq_self_of_fix fun c hc => (hch c hc).1.2.2,
    filter_eq_self_of_true (p := fun c => !isMn c) fun c hc => by simp [(hch c hc).1.2.1],
    replaceSub_eq_self hcont,
    replaceSub_eq_self heme,
    filter_eq_self_of_true fun c hc => by simp [(hch c hc).2]]

theorem canon_div_idem_of {s : String}
    (hsh : excelShape (canon_div s) = false)
    (heme : containsSeqL emeUpper (canon_div s).data = false) :
    canon_div (canon_div s) = canon_div s :=
  congrArg String.mk (canon_div_list_idem hsh heme)

/-! ## Lemmas about the deduplication and the pipeline steps -/

theorem dropDupByKey_spec :
    ∀ (rows : List SRow) (seen : List (String × String × String)),
      ∀ m ∈ dropDupByKey rows seen,
        keyrow m ∉ seen ∧ rows.find? (fun r => decide (keyrow r = keyrow m)) = some m := by
  intro rows
  induction rows with
  | nil => intro seen m hm; cases hm
  | cons r rs ih =>
    intro seen m hm
    unfold dropDupByKey at hm
    by_cases hk : keyrow r ∈ seen
    · rw [if_pos hk] at hm
      obtain ⟨hnotseen, hfind⟩ := ih seen m hm
      have hne : keyrow r ≠ keyrow m := fun he => hnotseen (he ▸ hk)
      refine ⟨hnotseen, ?_⟩
      rw [List.find?_cons_of_neg _ (by simp [hne]), hfind]
    · rw [if_neg hk] at hm
      rcases List.mem_cons.1 hm with he | hrec
      · subst he
        exact ⟨hk, by rw [List.find?_cons_of_pos _ (by simp)]⟩
      · obtain ⟨hnotseen, hfind⟩ := ih _ m hrec
        have hne : keyrow m ≠ keyrow r := fun he => hnotseen (he ▸ List.mem_cons_self _ seen)
        refine ⟨fun hs => hnotseen (List.mem_cons_of_mem _ hs), ?_⟩
        rw [List.find?_cons_of_neg _ (by simp [Ne.symm hne]), hfind]

theorem dropDupByKey_nodup :
    ∀ (rows : List SRow) (seen : List (String × String × String)),
      ((dropDupByKey rows seen).map keyrow).Nodup ∧
      ∀ k ∈ (dropDupByKey rows seen).map keyrow, k ∉ seen := by
  intro rows
  induction rows with
  | nil => intro seen; exact ⟨List.nodup_nil, by intro k hk; cases hk⟩
  | cons r rs ih =>
    intro seen
    unfold dropDupByKey
    by_cases hk : keyrow r ∈ seen
    · rw [if_pos hk]; exact ih seen
    · rw [if_neg hk]
      obtain ⟨hnd, hout⟩ := ih (keyrow r :: seen)
      refine ⟨?_, ?_⟩
      · rw [List.map_cons, List.nodup_cons]
        exact ⟨fun hmem => (hout _ hmem) (List.mem_cons_self _ _), hnd⟩
      · intro k hkm
        rcases List.mem_cons.1 hkm with he | hmem
        · exact he ▸ hk
        · exact fun hs => (hout k hmem) (List.mem_cons_of_mem _ hs)

theorem dropDupByKey_complete :
    ∀ (rows : List SRow) (seen : List (String × String × String)) (r : SRow),
      r ∈ rows → keyrow r ∈ seen ∨ ∃ m ∈ dropDupByKey rows seen, keyrow m = keyrow r := by
  intro rows
  induction rows with
  | nil => intro seen r hr; cases hr
  | cons x xs ih =>
    intro seen r hr
    unfold dropDupByKey
    by_cases hk : keyrow x ∈ seen
    · rw [if_pos hk]
      rcases List.mem_cons.1 hr with he | hmem
      · exact Or.inl (he ▸ hk)
      · exact ih seen r hmem
    · rw [if_neg hk]
      rcases List.mem_cons.1 hr with he | hmem
      · exact Or.inr ⟨x, List.mem_cons_self _ _, by rw [he]⟩
      · rcases ih (keyrow x :: seen) r hmem with hs | ⟨m, hm, hkey⟩
        · rcases List.mem_cons.1 hs with he | hs'
          · exact Or.inr ⟨x, List.mem_cons_self _ _, he.symm⟩
          · exact Or.inl hs'
        · exact Or.inr ⟨m, List.mem_cons_of_mem _ hm, hkey⟩

theorem merge_rows_perm (rows : List SRow) :
    List.Perm (merge_rows rows) (dropDupByKey rows []) :=
  List.perm_insertionSort _ _

/-- C2 (counterexample): two rows with equal identity keys where only the
second carries a guardian email; `merge_files` keeps the first row wholesale,
so the merged record's email column is empty — the non-empty field of the
duplicate is dropped, contradicting field-wise first-non-empty merging. -/
theorem merge_rows_drops_nonempty_field_of_duplicate :
    keyrow mrowA = keyrow mrowB ∧
    merge_rows [mrowA, mrowB] = [mrowA] ∧
    mrowA.courriel1 = "" ∧ mrowB.courriel1 ≠ "" := by decide

/-- C2 (amended): cross-file deduplication is row-wise, not field-wise: the
output has pairwise distinct identity keys, every ingested key is still
represented, and each surviving record is exactly the first ingested row
bearing its key (fields of later duplicates are discarded even when non-empty). -/
theorem merge_rows_keeps_first_row_per_key (rows : List SRow) :
    ((merge_rows rows).map keyrow).Nodup ∧
    (∀ r ∈ rows, ∃ m ∈ merge_rows rows, keyrow m = keyrow r) ∧
    (∀ m ∈ merge_rows rows, rows.find? (fun r => decide (keyrow r = keyrow m)) = some m) := by
  have hperm := merge_rows_perm rows
  refine ⟨?_, ?_, ?_⟩
  · exact ((hperm.map keyrow).nodup_iff).2 (dropDupByKey_nodup rows []).1
  · intro r hr
    rcases dropDupByKey_complete rows [] r hr with hs | ⟨m, hm, hkey⟩
    · cases hs
    · exact ⟨m, hperm.mem_iff.2 hm, hkey⟩
  · intro m hm
    exact (dropDupByKey_spec rows [] m (hperm.mem_iff.1 hm)).2

/-- C2 (witness): evaluating the amended statement on the duplicate pair. -/
theorem merge_rows_keeps_first_row_per_key_witness :
    ∃ m ∈ merge_rows [mrowA, mrowB], keyrow m = keyrow mrowB :=
  (merge_rows_keeps_first_row_per_key [mrowA, mrowB]).2.1 mrowB (by decide)

/-- C3: anti-mismatch guard of `pipeline_evalnat.py`: when no ingested row
canonicalises to the expected division, the canonisation/filter step aborts
with the sorted list of divisions actually seen and produces no output rows. -/
theorem canon_filter_fails_fast (classe : String) (rows : List PRow)
    (h : ∀ r ∈ rows, canon_div (rawDivOr r) ≠ pyUpperStr classe) :
    canonFilter classe rows = Except.error (divisionsSeen rows) := by
  unfold canonFilter
  have hempty : (rows.filterMap fun r =>
      if canon_div (rawDivOr r) = pyUpperStr classe then some {r with division := some classe}
      else none) = [] := by
    rw [List.filterMap_eq_nil_iff]
    intro r hr
    rw [if_neg (h r hr)]
  rw [hempty]
  rfl

/-- C3 (witness): a `6B`-only record set run with `--classe 6A` aborts with
the diagnostic naming `6B`. -/
theorem canon_filter_fails_fast_witness :
    canonFilter "6A" [⟨some "6B", none, []⟩] = Except.error ["6B"] := by
  have h := canon_filter_fails_fast "6A" [⟨some "6B", none, []⟩] (by decide)
  rw [h]
  rfl

/-- C5 (counterexample): step 3bis of the pipeline overwrites a pre-existing
non-empty `CorpsMessage` with the supplied uniform body. -/
theorem pipeline_injection_overwrites_custom_body :
    mmCustomRow.corps ≠ "" ∧
    (processRow (some "Uniform") [] mmCustomRow).corps ≠ mmCustomRow.corps := by decide

/-- C5 (amended): when a uniform body is supplied, the pipeline writes it into
every record's body — overwriting non-empty custom bodies — while leaving all
fields other than the body (and the separate empty-email fill) unchanged; only
the merge-stage injection of `merge_files` is non-destructive, filling none but
blank cells. -/
theorem message_injection_behaviour (m : String)
    (idx : List ((String × String × String) × String)) (r : MMRow) (v : String)
    (hv : blankishCell v = false) :
    processRow (some m) idx r = {fillEmails idx r with corps := m} ∧
    (pyStrip r.emails ≠ "" → fillEmails idx r = r) ∧
    merge_inject_cell m v = v := by
  refine ⟨rfl, ?_, ?_⟩
  · intro he
    unfold fillEmails
    rw [if_neg he]
  · unfold merge_inject_cell
    simp [hv]

/-- C5 (witness): evaluating the amended statement on the custom-body row. -/
theorem message_injection_behaviour_witness :
    processRow (some "Uniform") [] mmCustomRow = {fillEmails [] mmCustomRow with corps := "Uniform"} ∧
    (pyStrip mmCustomRow.emails ≠ "" → fillEmails [] mmCustomRow = mmCustomRow) ∧
    merge_inject_cell "Uniform" "Custom" = "Custom" :=
  message_injection_behaviour "Uniform" [] mmCustomRow "Custom" (by decide)

/-- C1: evaluation of `_canon_div`/`normalize_div` on the three documented
variants: the two `ème`-suffix forms canonicalise to `"4ED"` (the `EME → E`
replacement leaves the ordinal `E` in place), while the Excel-quoted bare form
gives `"4D"`; the three are not all equal and do not all equal `"4D"`. -/
theorem canon_div_known_variants :
    canon_div "4 ÈME D" = "4ED" ∧ canon_div "4eme D" = "4ED" ∧
    canon_div "=\"4 D\"" = "4D" ∧ ("4ED" : String) ≠ "4D" := by decide

/-- C9 (counterexample): `canon_div` is not idempotent: `"EMEME"` maps to
`"EME"` (the replacement is non-overlapping, left to right), which maps again
to `"E"`. -/
theorem canon_div_not_idempotent :
    canon_div (canon_div "EMEME") ≠ canon_div "EMEME" := by decide

/-- C9 (amended): `squash`, `squash_key` and `strip_accents_lower` (the spec's
`fold`) are idempotent on every string; `canon_div` is idempotent on every
string whose canonical image neither contains the substring `"EME"` nor has
the Excel-quoted shape `="…"`. -/
theorem normalizer_idempotence (s : String)
    (h1 : excelShape (canon_div s) = false)
    (h2 : containsSeqL emeUpper (canon_div s).data = false) :
    squash (squash s) = squash s ∧
    squash_key1 (squash_key1 s) = squash_key1 s ∧
    strip_accents_lower (strip_accents_lower s) = strip_accents_lower s ∧
    canon_div (canon_div s) = canon_div s :=
  ⟨squash_idem s, squash_key1_idem s, strip_accents_lower_idem s, canon_div_idem_of h1 h2⟩

/-- C9 (witness): the amended statement evaluated at `"4 ÈME D"`. -/
theorem normalizer_idempotence_witness :
    squash (squash "4 ÈME D") = squash "4 ÈME D" ∧
    squash_key1 (squash_key1 "4 ÈME D") = squash_key1 "4 ÈME D" ∧
    strip_accents_lower (strip_accents_lower "4 ÈME D") = strip_accents_lower "4 ÈME D" ∧
    canon_div (canon_div "4 ÈME D") = canon_div "4 ÈME D" :=
  normalizer_idempotence "4 ÈME D" (by decide) (by decide)

/-- C8: guardian email extraction on the documented input: both extractors
return exactly the two case-insensitively distinct addresses, original
spelling of the first occurrence, first-seen order. -/
theorem guardian_email_extraction :
    join_emails_list "a@x.com; A@X.COM , b@y.com" "" = ["a@x.com", "b@y.com"] ∧
    join_emails "a@x.com; A@X.COM , b@y.com" "" = "a@x.com;b@y.com" ∧
    canon_email_list ["a@x.com; A@X.COM , b@y.com"] = ["a@x.com", "b@y.com"] := by decide

/-- C7 (counterexample): pages 1 and 2 tie on the French score (2 = 2); page 1
has the lowest index, yet the demotion branch (page 1 wins both subjects and
its Math score is the stronger one) assigns Mathématiques to page 1 and
Français to page 2 — the lowest-index page does not win the tied subject. -/
theorem resolve_ties_counterexample :
    (mkPage 1 2 3).fr = (mkPage 2 2 0).fr ∧ (mkPage 1 2 3).idx < (mkPage 2 2 0).idx ∧
    ¬ (∃ p ∈ resolveGroup [mkPage 1 2 3, mkPage 2 2 0],
        p.idx = 1 ∧ p.disc = some Discipline.francais) ∧
    ((resolveGroup [mkPage 1 2 3, mkPage 2 2 0]).map fun p => (p.idx, p.disc)) =
      [(1, some Discipline.mathematiques), (2, some Discipline.francais)] := by decide

/-- C10: every page of a student group (as built by `groupByName`) with at
least two pages leaves `resolveGroup` with an assigned subject: the selection,
demotion and default-fill branches all write `some` subject, so unresolved
pages can only come from nameless (ungrouped) pages or single-page groups. -/
theorem multi_page_group_total (pages : List (Option String × PageInfo)) (n : String)
    (g : List PageInfo) (_hg : (n, g) ∈ groupByName pages) (h2 : 2 ≤ g.length) :
    ∀ p ∈ resolveGroup g, p.disc.isSome := by
  unfold resolveGroup
  have hlen := (List.perm_insertionSort (fun a b : PageInfo => a.idx ≤ b.idx) g).length_eq
  cases hits : List.insertionSort (fun a b : PageInfo => a.idx ≤ b.idx) g with
  | nil => rw [hits] at hlen; rw [← hlen] at h2; cases h2
  | cons h t =>
    rw [hits] at hlen
    have ht : t.isEmpty = false := by
      cases t with
      | nil => rw [← hlen] at h2; cases h2 with
        | step h' => cases h'
      | cons x xs => rfl
    simp only [ht, Bool.false_eq_true, if_false]
    intro p hp
    obtain ⟨q, _, rfl⟩ := List.mem_map.1 hp
    split <;> rfl

/-- C10 (witness): a two-page group of one student, with weak and tied scores,
still gets both pages assigned. -/
theorem multi_page_group_total_witness :
    (resolveGroup [mkPage 1 0 0, mkPage 2 1 1]).all (fun p => p.disc.isSome) = true := by
  rw [List.all_eq_true]
  intro p hp
  exact multi_page_group_total
    [(some "Robin ARLOT", mkPage 1 0 0), (some "Robin ARLOT", mkPage 2 1 1)]
    "Robin ARLOT" [mkPage 1 0 0, mkPage 2 1 1] (by decide) (by decide) p hp

/-- C7 (amended): in a two-page group scoring (French 5, Math 0) and
(French 0, Math 4), the first page gets Français and the second Mathématiques
whatever the page order and whichever has the lower index; and on a tied
subject score the lowest-index page is *selected* as that subject's best page
(`max` with key `(score, -idx)`) — the final assignment can differ only through
the double-win demotion branch. -/
theorem two_page_resolution_order_independent (ia ib : Nat) (hne : ia ≠ ib) :
    (rGet (resolveGroup [mkPage ia 5 0, mkPage ib 0 4]) ia = some (some .francais) ∧
     rGet (resolveGroup [mkPage ia 5 0, mkPage ib 0 4]) ib = some (some .mathematiques) ∧
     rGet (resolveGroup [mkPage ib 0 4, mkPage ia 5 0]) ia = some (some .francais) ∧
     rGet (resolveGroup [mkPage ib 0 4, mkPage ia 5 0]) ib = some (some .mathematiques)) ∧
    (∀ a b : PageInfo, a.fr = b.fr → a.idx < b.idx →
      pymaxBy frKeyGt a [b] = a ∧ pymaxBy frKeyGt b [a] = a) ∧
    (∀ a b : PageInfo, a.ma = b.ma → a.idx < b.idx →
      pymaxBy maKeyGt a [b] = a ∧ pymaxBy maKeyGt b [a] = a) := by
  refine ⟨?_, ?_, ?_⟩
  · by_cases hle : ia ≤ ib
    · have hnle : ¬ ib ≤ ia := by omega
      refine ⟨?_, ?_, ?_, ?_⟩ <;>
        simp [resolveGroup, List.insertionSort, List.orderedInsert, hle, hnle, pymaxBy,
          frKeyGt, maKeyGt, rGet, List.find?, mkPage, guess_discipline, hne, Ne.symm hne]
    · have hle' : ib ≤ ia := by omega
      refine ⟨?_, ?_, ?_, ?_⟩ <;>
        simp [resolveGroup, List.insertionSort, List.orderedInsert, hle, hle', pymaxBy,
          frKeyGt, maKeyGt, rGet, List.find?, mkPage, guess_discipline, hne, Ne.symm hne]
  · intro a b hfr hidx
    have h1 : frKeyGt b a = false := by
      simp only [frKeyGt, Bool.or_eq_false_iff, Bool.and_eq_false_iff, decide_eq_false_iff_not]
      omega
    have h2 : frKeyGt a b = true := by
      simp only [frKeyGt, Bool.or_eq_true, Bool.and_eq_true, decide_eq_true_eq]
      omega
    exact ⟨by simp [pymaxBy, h1], by simp [pymaxBy, h2]⟩
  · intro a b hma hidx
    have h1 : maKeyGt b a = false := by
      simp only [maKeyGt, Bool.or_eq_false_iff, Bool.and_eq_false_iff, decide_eq_false_iff_not]
      omega
    have h2 : maKeyGt a b = true := by
      simp only [maKeyGt, Bool.or_eq_true, Bool.and_eq_true, decide_eq_true_eq]
      omega
    exact ⟨by simp [pymaxBy, h1], by simp [pymaxBy, h2]⟩

/-- C7 (witness): the amended statement evaluated at pages 1 and 2, both
orders, plus a concrete tied pair. -/
theorem two_page_resolution_order_independent_witness :
    (rGet (resolveGroup [mkPage 1 5 0, mkPage 2 0 4]) 1 = some (some .francais) ∧
     rGet (resolveGroup [mkPage 1 5 0, mkPage 2 0 4]) 2 = some (some .mathematiques) ∧
     rGet (resolveGroup [mkPage 2 0 4, mkPage 1 5 0]) 1 = some (some .francais) ∧
     rGet (resolveGroup [mkPage 2 0 4, mkPage 1 5 0]) 2 = some (some .mathematiques)) ∧
    pymaxBy frKeyGt (mkPage 1 2 3) [mkPage 2 2 0] = mkPage 1 2 3 := by
  obtain ⟨h14, h2, h3⟩ := two_page_resolution_order_independent 1 2 (by decide)
  exact ⟨h14, (h2 (mkPage 1 2 3) (mkPage 2 2 0) (by decide) (by decide)).1⟩

theorem srcOutRow_pjFr (cat : List (SKey × String)) (annee : String) (r : CRow) :
    (srcOutRow cat annee r).pjFr = srcPj cat "francais" annee r := rfl

theorem srcOutRow_pjMa (cat : List (SKey × String)) (annee : String) (r : CRow) :
    (srcOutRow cat annee r).pjMa = srcPj cat "mathematiques" annee r := rfl

/-- C4 (counterexample): a record whose French document joins but whose Math
document is missing produces *no* missing-report entry in the main build
variant (`rows_missing` is appended only when both subjects are missing), so
the record does not appear in the report at all, let alone with its expected
filenames. -/
theorem missing_math_not_reported :
    ((src_join_row c4cat [] "2025-2026" c4row).map fun p => (p.1.pjFr, p.1.pjMa, p.2.isSome)) =
      some ("PJ1.pdf", "", false) := by decide

/-- C4 (amended): the main build variant's missing report lists an identity
iff documents were found for *neither* subject, and its entries carry the
candidate expected filenames for both subjects; the Windows variant reports
every identity missing either subject, but with only per-subject `oui` flags
and no filenames. -/
theorem missing_report_conditions
    (cat : List (SKey × String)) (byDiv : List (String × List String)) (annee : String)
    (r : CRow) (out : SrcOut) (m : Option SrcMiss)
    (h : src_join_row cat byDiv annee r = some (out, m)) :
    (m.isSome ↔ (out.pjFr = "" ∧ out.pjMa = "")) ∧
    (∀ mm ∈ m,
      mm.attFr1 = out.classe ++ "_" ++ out.nom ++ "_" ++ out.prenom ++ "_Français_" ++
        annee ++ ".pdf" ∧
      mm.attMa1 = out.classe ++ "_" ++ out.nom ++ "_" ++ out.prenom ++ "_Mathématiques_" ++
        annee ++ ".pdf") ∧
    (∀ (frMap maMap : List (String × String)) (w : WRow),
      (win_join_row frMap maMap w).2.isSome ↔
        ((win_join_row frMap maMap w).1.pjFr = "" ∨ (win_join_row frMap maMap w).1.pjMa = "")) := by
  unfold src_join_row at h
  split at h
  · exact absurd h (by simp)
  · rw [Option.some.injEq, Prod.mk.injEq] at h
    obtain ⟨hout, hm⟩ := h
    subst hout
    subst hm
    refine ⟨?_, ?_, ?_⟩
    · rw [srcOutRow_pjFr, srcOutRow_pjMa]
      by_cases hc : srcPj cat "francais" annee r = "" ∧ srcPj cat "mathematiques" annee r = ""
      · rw [if_pos hc]
        simpa using hc
      · rw [if_neg hc]
        simpa using hc
    · intro mm hmm
      split at hmm
      · rw [Option.mem_def, Option.some.injEq] at hmm
        subst hmm
        exact ⟨rfl, rfl⟩
      · simp at hmm
    · intro frMap maMap w
      by_cases hc : lookupStrMap frMap (squash_key [w.division, w.nom, w.prenom]) = "" ∨
          lookupStrMap maMap (squash_key [w.division, w.nom, w.prenom]) = ""
      · simp [win_join_row, hc]
      · simp [win_join_row, hc]

/-- C4 (witness): the amended statement evaluated on the single-student
scenario against the empty catalog (both subjects missing, report row holding
both expected filenames). -/
theorem missing_report_conditions_witness :
    ((some (srcMissRow [] "2025-2026" c4row) : Option SrcMiss).isSome ↔
      ((srcOutRow [] "2025-2026" c4row).pjFr = "" ∧ (srcOutRow [] "2025-2026" c4row).pjMa = "")) ∧
    (srcMissRow [] "2025-2026" c4row).attFr1 =
      (srcOutRow [] "2025-2026" c4row).classe ++ "_" ++ (srcOutRow [] "2025-2026" c4row).nom ++
        "_" ++ (srcOutRow [] "2025-2026" c4row).prenom ++ "_Français_" ++ "2025-2026" ++ ".pdf" := by
  obtain ⟨h1, h2, _⟩ := missing_report_conditions [] [] "2025-2026" c4row
    (srcOutRow [] "2025-2026" c4row) (some (srcMissRow [] "2025-2026" c4row)) (by decide)
  exact ⟨h1, (h2 (srcMissRow [] "2025-2026" c4row) rfl).1⟩

/-- C6: the artifact re-decode leg is dead code: whenever the strict UTF-8
probe has failed (the only way to reach the CP1252 branch), the re-attempted
UTF-8 probe fails identically, so an artifact-laden CP1252 decode is used
anyway; concretely, bytes `C3 A9 FF` fail UTF-8, decode under CP1252 to
`"Ã©ÿ"` which contains the artifacts `"Ã©"` and `"Ã"`, yet the reader opens
the file as CP1252, not UTF-8-with-signature. -/
theorem open_csv_enc_artifact_leg_dead (raw : List Nat) (hfail : utf8Decode raw = none) :
    open_csv_enc raw ≠ CsvEnc.utf8sig ∧
    (utf8Decode [195, 169, 255] = none ∧
     cp1252Decode [195, 169, 255] = some [195, 169, 255] ∧
     hasMojibakeArtifact [195, 169, 255] = true ∧
     open_csv_enc [195, 169, 255] = CsvEnc.cp1252) := by
  refine ⟨?_, by decide, by decide, by decide, by decide⟩
  unfold open_csv_enc
  rw [hfail]
  cases hcp : cp1252Decode raw with
  | none => simp
  | some txt =>
    by_cases ha : hasMojibakeArtifact txt = true
    · simp [ha, hfail]
    · simp [ha]

/-- C6 (witness): the dead-code fact applied to the concrete artifact bytes. -/
theorem open_csv_enc_artifact_leg_dead_witness :
    open_csv_enc [195, 169, 255] ≠ CsvEnc.utf8sig :=
  (open_csv_enc_artifact_leg_dead [195, 169, 255] (by decide)).1
